import Mathlib

/-!
Verification development for the award-extraction engine of
`cauliyang/cs337_project_1`.

The Python sources under `src/award/` are shallowly embedded below.
Conventions used throughout:

* Python `str` is modelled by Lean `String`, restricted to ASCII text.
  The two external encoding-repair cleaners (`ftfy.fix_text`,
  `unidecode.unidecode`) are the identity on ASCII input and are out of
  the core's scope (spec section 1), so they are modelled as the identity.
* Python `int` counters are `Nat` (retweet counts are validated
  non-negative by the `Tweet` pydantic model); ratios and averages that
  Python computes with float division are modelled as exact rationals
  (the spec asks only for 1e-9 tolerance, and all ratios here are
  quotients of small integers, where IEEE double comparison against the
  literals 0.5/0.65/0.7/0.8 agrees with the exact rational comparison).
* Python dicts keyed by strings are association lists in insertion
  order; Python `Counter.most_common()` is a stable sort by descending
  count (CPython's `sorted` is stable).
-/

namespace GG

/-- Python `str.isspace` characters for ASCII text (`" \t\n\r\x0b\x0c"`). -/
def pyIsSpace (c : Char) : Bool :=
  c = ' ' || c = '\t' || c = '\n' || c = '\x0d' || c = '\x0b' || c = '\x0c'

/-- Python `str.strip()` on ASCII text: drop leading and trailing whitespace. -/
def pyStrip (s : String) : String :=
  ⟨(s.toList.dropWhile pyIsSpace).reverse.dropWhile pyIsSpace |>.reverse⟩

/-- ASCII lower-casing, as Python `str.lower()` acts on ASCII text. -/
def pyLower (s : String) : String :=
  ⟨s.toList.map Char.toLower⟩

/-- Python `c.isalnum() or c.isspace()` for ASCII characters: the keep-predicate
of `AlphanumericCleaner.clean` (src/award/processors/cleaner.py). -/
def keepAlnumSpace (c : Char) : Bool :=
  (c.isAlpha || c.isDigit) || pyIsSpace c

/-- `re.sub(r"\s+", " ", text)`: replace every maximal whitespace run by a
single space (`WhitespaceCollapseCleaner.clean`).  The boolean argument
records whether the previous character was part of a whitespace run. -/
def collapseWsAux : Bool → List Char → List Char
  | _, [] => []
  | prevSpace, c :: cs =>
    if pyIsSpace c then
      if prevSpace then collapseWsAux true cs
      else ' ' :: collapseWsAux true cs
    else c :: collapseWsAux false cs

def collapseWs (l : List Char) : List Char := collapseWsAux false l

/-- `normalize_text` from src/award/processors/cleaner.py: ftfy fix (identity
on ASCII), unidecode (identity on ASCII), keep alphanumerics and spaces,
lower-case, collapse whitespace — applied in that order. -/
def normalizeText (s : String) : String :=
  ⟨collapseWs ((s.toList.filter keepAlnumSpace).map Char.toLower)⟩

/-- Helper for `pyWords`: walk the characters, accumulating the current word
(in reverse) and emitting it at each whitespace run or at the end. -/
def pyWordsAux : List Char → List Char → List String
  | [], cur => if cur = [] then [] else [⟨cur.reverse⟩]
  | c :: cs, cur =>
    if pyIsSpace c then
      if cur = [] then pyWordsAux cs []
      else ⟨cur.reverse⟩ :: pyWordsAux cs []
    else pyWordsAux cs (c :: cur)

/-- Python `str.split()` with no argument: split on whitespace runs and drop
empty pieces. -/
def pyWords (s : String) : List String :=
  pyWordsAux s.toList []

/-- Python `set(s.split())`. -/
def wordSet (s : String) : Finset String :=
  (pyWords s).toFinset

/-- Python substring containment `needle in hay`: the needle is a prefix of
some suffix of the haystack. -/
def strContains (hay needle : String) : Bool :=
  (hay.toList.tails).any (fun t => needle.toList.isPrefixOf t)

/-- The tweet record (src/award/tweet.py), restricted to the fields the
aggregation and extraction logic reads.  `retweeted_count` is validated
non-negative by pydantic (`ge=0`), hence `Nat`. -/
structure Tweet where
  id : Int
  text : String
  retweeted_count : Nat
  deriving Repr, DecidableEq

/-! ## Aggregation (src/award/aggregate.py) -/

/-- `CandidateScore` dataclass from src/award/aggregate.py. -/
structure CandidateScore where
  name : String
  frequency : Nat
  total_retweets : Nat
  avg_retweets : ℚ
  max_retweets : Nat
  length : Nat
  tweets : List Tweet
  weighted_score : ℚ
  deriving Repr, DecidableEq

/-- The mutable state of an `AwardAggregator`: its `candidates` dict (an
insertion-ordered association list) and its global `tweets` list. -/
structure AggState where
  candidates : List (String × CandidateScore)
  tweets : List Tweet
  deriving Repr, DecidableEq

def AggState.init : AggState := ⟨[], []⟩

/-- The freshly created candidate in `add_tweet_data` (all-zero statistics,
immediately updated afterwards). -/
def freshCandidate (item : String) : CandidateScore :=
  ⟨item, 0, 0, 0, 0, item.length, [], 0⟩

/-- The statistics update applied to a candidate inside `add_tweet_data`:
frequency += 1, total_retweets += tweet.retweeted_count, max update, tweet
appended, and the average recomputed from the updated totals. -/
def updateCandidate (t : Tweet) (c : CandidateScore) : CandidateScore :=
  let freq := c.frequency + 1
  let tot := c.total_retweets + t.retweeted_count
  { name := c.name
    frequency := freq
    total_retweets := tot
    avg_retweets := (tot : ℚ) / (freq : ℚ)
    max_retweets := max c.max_retweets t.retweeted_count
    length := c.length
    tweets := c.tweets ++ [t]
    weighted_score := c.weighted_score }

/-- Replace the first entry with the given key by applying `f` to it. -/
def updateFirst (key : String) (f : CandidateScore → CandidateScore) :
    List (String × CandidateScore) → List (String × CandidateScore)
  | [] => []
  | (k, c) :: rest =>
    if k = key then (k, f c) :: rest else (k, c) :: updateFirst key f rest

/-- The guard in `add_tweet_data`: `if not item or len(item.strip()) < 2:
continue`. -/
def itemValid (item : String) : Bool :=
  !(item = "" || (pyStrip item).length < 2)

/-- One iteration of the `for item in extracted_items` loop of
`AwardAggregator.add_tweet_data`: skip invalid items, strip the item, create
the candidate on first sight, then update its statistics. -/
def addItem (t : Tweet) (cands : List (String × CandidateScore)) (item : String) :
    List (String × CandidateScore) :=
  if itemValid item then
    updateFirst (pyStrip item) (updateCandidate t)
      (if (cands.lookup (pyStrip item)).isSome then cands
       else cands ++ [(pyStrip item, freshCandidate (pyStrip item))])
  else cands

/-- `AwardAggregator.add_tweet_data`: the tweet is appended unconditionally,
then every extracted item is folded into the candidates dict. -/
def addTweetData (st : AggState) (t : Tweet) (items : List String) : AggState :=
  { candidates := items.foldl (addItem t) st.candidates
    tweets := st.tweets ++ [t] }

/-- A whole sequence of `add_tweet_data` calls, starting from a given state. -/
def runCalls (st : AggState) (calls : List (Tweet × List String)) : AggState :=
  calls.foldl (fun s c => addTweetData s c.1 c.2) st

/-- The candidate statistics invariant of claim C1. -/
def candInv (c : CandidateScore) : Prop :=
  c.frequency = c.tweets.length ∧
  c.total_retweets = (c.tweets.map Tweet.retweeted_count).sum ∧
  c.avg_retweets = (c.total_retweets : ℚ) / (c.frequency : ℚ) ∧
  1 ≤ c.frequency

/-- The weaker creation-time invariant that `updateCandidate` upgrades to
`candInv`. -/
def candPre (c : CandidateScore) : Prop :=
  c.frequency = c.tweets.length ∧
  c.total_retweets = (c.tweets.map Tweet.retweeted_count).sum

theorem candInv_imp_pre {c : CandidateScore} (h : candInv c) : candPre c :=
  ⟨h.1, h.2.1⟩

theorem candPre_fresh (item : String) : candPre (freshCandidate item) := by
  constructor <;> rfl

theorem candInv_update (t : Tweet) {c : CandidateScore} (h : candPre c) :
    candInv (updateCandidate t c) := by
  obtain ⟨h1, h2⟩ := h
  refine ⟨?_, ?_, ?_, ?_⟩
  · simp [updateCandidate, h1]
  · simp [updateCandidate, h2]
  · rfl
  · simp [updateCandidate]

/-- Invariant of every stored entry of the candidates dict: statistics are
consistent and the key is a stripped item of length at least 2. -/
def entryInv (e : String × CandidateScore) : Prop :=
  candInv e.2 ∧ 2 ≤ e.1.length

theorem updateFirst_mem {key : String} {f : CandidateScore → CandidateScore}
    {l : List (String × CandidateScore)} :
    ∀ e ∈ updateFirst key f l, e ∈ l ∨ ∃ c0, (key, c0) ∈ l ∧ e = (key, f c0) := by
  induction l with
  | nil => simp [updateFirst]
  | cons hd tl ih =>
    obtain ⟨k0, c0⟩ := hd
    intro e he
    rw [updateFirst] at he
    by_cases hk : k0 = key
    · rw [if_pos hk] at he
      rcases List.mem_cons.mp he with h | h
      · subst hk; exact Or.inr ⟨c0, List.mem_cons_self _ _, h⟩
      · exact Or.inl (List.mem_cons_of_mem _ h)
    · rw [if_neg hk] at he
      rcases List.mem_cons.mp he with h | h
      · exact Or.inl (by simp [h])
      · rcases ih e h with h' | ⟨c1, hc1, he'⟩
        · exact Or.inl (List.mem_cons_of_mem _ h')
        · exact Or.inr ⟨c1, List.mem_cons_of_mem _ hc1, he'⟩

theorem updateFirst_append_notmem {key : String} {f : CandidateScore → CandidateScore}
    {l : List (String × CandidateScore)} {c : CandidateScore}
    (h : l.lookup key = none) :
    updateFirst key f (l ++ [(key, c)]) = l ++ [(key, f c)] := by
  induction l with
  | nil => simp [updateFirst]
  | cons hd tl ih =>
    obtain ⟨k0, c0⟩ := hd
    by_cases hk : key = k0
    · exact absurd h (by simp [List.lookup, beq_iff_eq.mpr hk])
    · have hbeq : (key == k0) = false := beq_eq_false_iff_ne.mpr hk
      rw [List.lookup, hbeq] at h
      rw [List.cons_append, updateFirst, if_neg (fun hh => hk hh.symm), ih h,
        List.cons_append]

theorem addItem_entryInv {cands : List (String × CandidateScore)} (t : Tweet)
    (item : String) (h : ∀ e ∈ cands, entryInv e) :
    ∀ e ∈ addItem t cands item, entryInv e := by
  intro e he
  rw [addItem] at he
  by_cases hv : itemValid item = true
  · rw [if_pos hv] at he
    have hkeylen : 2 ≤ (pyStrip item).length := by
      rw [itemValid, Bool.not_eq_true', Bool.or_eq_false_iff] at hv
      have := hv.2
      simpa using Nat.le_of_not_lt (by simpa using this)
    by_cases hs : (cands.lookup (pyStrip item)).isSome
    · rw [if_pos hs] at he
      rcases updateFirst_mem e he with h' | ⟨c0, hc0, he'⟩
      · exact h e h'
      · have := h _ hc0
        exact he' ▸ ⟨candInv_update t (candInv_imp_pre this.1), hkeylen⟩
    · rw [if_neg hs] at he
      rw [updateFirst_append_notmem (by
        rcases h' : cands.lookup (pyStrip item) with _ | v
        · rfl
        · exact absurd (h' ▸ rfl) hs)] at he
      rcases List.mem_append.mp he with h' | h'
      · exact h e h'
      · have : e = (pyStrip item, updateCandidate t (freshCandidate (pyStrip item))) := by
          simpa using h'
        exact this ▸ ⟨candInv_update t (candPre_fresh _), hkeylen⟩
  · rw [if_neg hv] at he
    exact h e he

theorem foldl_addItem_entryInv (t : Tweet) (items : List String) :
    ∀ cands : List (String × CandidateScore), (∀ e ∈ cands, entryInv e) →
      ∀ e ∈ items.foldl (addItem t) cands, entryInv e := by
  induction items with
  | nil => intro cands h; exact h
  | cons hd tl ih =>
    intro cands h
    exact ih _ (addItem_entryInv t hd h)

theorem addTweetData_entryInv {st : AggState} (t : Tweet) (items : List String)
    (h : ∀ e ∈ st.candidates, entryInv e) :
    ∀ e ∈ (addTweetData st t items).candidates, entryInv e :=
  foldl_addItem_entryInv t items st.candidates h

theorem runCalls_entryInv (calls : List (Tweet × List String)) :
    ∀ e ∈ (runCalls AggState.init calls).candidates, entryInv e := by
  suffices h : ∀ st, (∀ e ∈ st.candidates, entryInv e) →
      ∀ e ∈ (runCalls st calls).candidates, entryInv e by
    exact h AggState.init (by intro e he; exact absurd he (by simp [AggState.init]))
  induction calls with
  | nil => intro st h; exact h
  | cons hd tl ih =>
    intro st h
    exact ih _ (addTweetData_entryInv hd.1 hd.2 h)

/-- C1: after any sequence of `add_tweet_data` calls on a fresh
`AwardAggregator`, every stored candidate's `frequency` equals the length of
its supporting tweets list, its `total_retweets` equals the sum of
`retweeted_count` over those tweets, its `avg_retweets` equals
`total_retweets / frequency`, and its frequency is at least 1. -/
theorem aggregator_candidate_invariant
    (calls : List (Tweet × List String)) (k : String) (c : CandidateScore)
    (h : (k, c) ∈ (runCalls AggState.init calls).candidates) :
    c.frequency = c.tweets.length ∧
    c.total_retweets = (c.tweets.map Tweet.retweeted_count).sum ∧
    c.avg_retweets = (c.total_retweets : ℚ) / (c.frequency : ℚ) ∧
    1 ≤ c.frequency :=
  (runCalls_entryInv calls _ h).1

/-- Concrete instantiation of `aggregator_candidate_invariant`: two tweets
both mentioning the same name. -/
theorem aggregator_candidate_invariant_witness :
    (("daniel daylewis",
      ⟨"daniel daylewis", 2, 150, 75, 100, 15,
        [⟨1, "a", 100⟩, ⟨2, "b", 50⟩], 0⟩) ∈
        (runCalls AggState.init
          [(⟨1, "a", 100⟩, ["daniel daylewis"]),
           (⟨2, "b", 50⟩, [" daniel daylewis "])]).candidates) ∧
    (2 : Nat) = ([⟨1, "a", 100⟩, (⟨2, "b", 50⟩ : Tweet)].map
        Tweet.retweeted_count).length ∧
    (150 : Nat) = ([⟨1, "a", 100⟩, (⟨2, "b", 50⟩ : Tweet)].map
        Tweet.retweeted_count).sum ∧
    (75 : ℚ) = ((150 : Nat) : ℚ) / ((2 : Nat) : ℚ) ∧
    (1 : Nat) ≤ 2 := by
  refine ⟨by with_unfolding_all decide, ?_⟩
  have h := aggregator_candidate_invariant
    [(⟨1, "a", 100⟩, ["daniel daylewis"]), (⟨2, "b", 50⟩, [" daniel daylewis "])]
    "daniel daylewis"
    ⟨"daniel daylewis", 2, 150, 75, 100, 15, [⟨1, "a", 100⟩, ⟨2, "b", 50⟩], 0⟩
    (by with_unfolding_all decide)
  exact ⟨by rfl, by rfl, h.2.2.1, h.2.2.2⟩

/-- C10: `add_tweet_data` appends the tweet to the global tweets list
unconditionally; an extracted item that is empty or whose stripped form is
shorter than 2 characters leaves the candidates dict untouched; and every
stored candidate key has length at least 2 (so a single-character extracted
name never becomes a candidate). -/
theorem add_tweet_data_tweet_appended_and_short_items_skipped :
    (∀ (st : AggState) (t : Tweet) (items : List String),
      (addTweetData st t items).tweets = st.tweets ++ [t]) ∧
    (∀ (t : Tweet) (item : String) (cands : List (String × CandidateScore)),
      itemValid item = false → addItem t cands item = cands) ∧
    (∀ (calls : List (Tweet × List String)) (k : String) (c : CandidateScore),
      (k, c) ∈ (runCalls AggState.init calls).candidates → 2 ≤ k.length) := by
  refine ⟨fun st t items => rfl, fun t item cands hval => ?_, fun calls k c h => ?_⟩
  · rw [addItem, if_neg (by simp [hval])]
  · exact (runCalls_entryInv calls _ h).2

/-- Concrete instantiation of
`add_tweet_data_tweet_appended_and_short_items_skipped`: the tweet is
recorded, the one-character item `"x"` changes nothing, and the stored key
from a real run has length at least 2. -/
theorem add_tweet_data_short_items_witness :
    (addTweetData AggState.init ⟨7, "t", 3⟩ ["x"]).tweets = [] ++ [⟨7, "t", 3⟩] ∧
    addItem ⟨7, "t", 3⟩ [] "x" = [] ∧
    2 ≤ "ab".length := by
  obtain ⟨h1, h2, h3⟩ := add_tweet_data_tweet_appended_and_short_items_skipped
  refine ⟨h1 AggState.init ⟨7, "t", 3⟩ ["x"], h2 ⟨7, "t", 3⟩ "x" [] (by decide), ?_⟩
  exact h3 [(⟨1, "t", 0⟩, ["ab"])] "ab"
    ⟨"ab", 1, 0, 0, 0, 2, [⟨1, "t", 0⟩], 0⟩ (by with_unfolding_all decide)

/-! ## Nominee selection
(`NomineeExtractor.select_top_nominees`, src/award/extractors/nominee_extractor.py) -/

/-- The local `winner_normalized = normalize_text(winner) if winner else ""`
of `select_top_nominees`. -/
def nomineeWinnerNorm (winner : String) : String :=
  if winner ≠ "" then normalizeText winner else ""

/-- The local `filtered_candidates` of `select_top_nominees`: candidates kept
by the `for` loop, i.e. those not skipped by
`if winner_normalized and normalize_text(nominee_name) == winner_normalized`. -/
def nomineeFiltered (cands : List (String × Nat)) (winner : String) :
    List (String × Nat) :=
  cands.filter (fun nc =>
    if nomineeWinnerNorm winner ≠ "" ∧ normalizeText nc.1 = nomineeWinnerNorm winner
    then false else true)

/-- The local `high_confidence` of `select_top_nominees`: filtered candidates
with `count >= self.min_mentions`. -/
def nomineeHighConfidence (cands : List (String × Nat)) (winner : String)
    (minMentions : Nat) : List (String × Nat) :=
  (nomineeFiltered cands winner).filter (fun nc => minMentions ≤ nc.2)

/-- `NomineeExtractor.select_top_nominees`.  The call
`self.entity_validator.get_expected_type_from_award(award_name)` in the source
discards its result and has no side effect, so it is omitted.  `award_tweets`
is accepted but never read by the function body. -/
def selectTopNominees (nomineeCandidates : List (String × Nat)) (awardName : String)
    (awardTweets : List Tweet) (winner : String) (minMentions topN : Nat) :
    List String :=
  if nomineeCandidates = [] then []
  else if strContains (pyLower awardName) "cecil" &&
      strContains (pyLower awardName) "demille" then []
  else if 3 ≤ (nomineeHighConfidence nomineeCandidates winner minMentions).length
  then ((nomineeHighConfidence nomineeCandidates winner minMentions).take topN).map
    Prod.fst
  else ((nomineeFiltered nomineeCandidates winner).take topN).map Prod.fst

/-- C2 counterexample: the winner `"!!"` is non-empty but normalizes to the
empty string, so the exclusion check `if winner_normalized and ...` is
skipped and a candidate whose normalized form also equals the normalized
winner survives into the nominee list. -/
theorem select_top_nominees_winner_exclusion_cex :
    "??" ∈ selectTopNominees [("??", 1)] "best drama" [] "!!" 3 5 ∧
    normalizeText "??" = normalizeText "!!" ∧ ("!!" : String) ≠ "" := by
  decide

theorem mem_selectTopNominees_filtered {cands : List (String × Nat)}
    {awardName : String} {tweets : List Tweet} {winner : String}
    {minM topN : Nat} {n : String}
    (hn : n ∈ selectTopNominees cands awardName tweets winner minM topN) :
    ∃ c : Nat, (n, c) ∈ cands ∧
      (nomineeWinnerNorm winner ≠ "" →
        normalizeText n ≠ nomineeWinnerNorm winner) := by
  have hfl : ∀ p ∈ nomineeFiltered cands winner, p ∈ cands ∧
      (nomineeWinnerNorm winner ≠ "" →
        normalizeText p.1 ≠ nomineeWinnerNorm winner) := by
    intro p hp
    have hmf := List.mem_filter.mp hp
    refine ⟨hmf.1, fun hne heq => ?_⟩
    have hcond := hmf.2
    rw [if_pos ⟨hne, heq⟩] at hcond
    exact absurd hcond (by simp)
  rw [selectTopNominees] at hn
  split at hn
  · exact absurd hn (by simp)
  · split at hn
    · exact absurd hn (by simp)
    · split at hn
      · rcases List.mem_map.mp hn with ⟨p, hp, hpn⟩
        rw [nomineeHighConfidence] at hp
        have hp' : p ∈ nomineeFiltered cands winner :=
          List.mem_of_mem_filter (List.take_subset _ _ hp)
        exact ⟨p.2, hpn ▸ ⟨(hfl p hp').1, (hfl p hp').2⟩⟩
      · rcases List.mem_map.mp hn with ⟨p, hp, hpn⟩
        have hp' : p ∈ nomineeFiltered cands winner := List.take_subset _ _ hp
        exact ⟨p.2, hpn ▸ ⟨(hfl p hp').1, (hfl p hp').2⟩⟩

/-- C2 (amended): for a non-empty winner, no returned nominee normalizes to
the normalized winner name, provided the winner's normalized form is
non-empty or every candidate name is a non-empty normalization-fixed string
(candidate names produced by `associate_nominees_with_awards` are of the
latter kind: they are non-empty `normalize_text` outputs). -/
theorem select_top_nominees_excludes_winner
    (cands : List (String × Nat)) (awardName : String) (tweets : List Tweet)
    (winner : String) (minM topN : Nat)
    (hside : normalizeText winner ≠ "" ∨
      (∀ nc ∈ cands, normalizeText nc.1 = nc.1 ∧ nc.1 ≠ "")) :
    ∀ n ∈ selectTopNominees cands awardName tweets winner minM topN,
      winner ≠ "" → normalizeText n ≠ normalizeText winner := by
  intro n hn hwinner
  obtain ⟨c, hmem, hexcl⟩ := mem_selectTopNominees_filtered hn
  rw [nomineeWinnerNorm, if_pos hwinner] at hexcl
  rcases hside with h | h
  · exact hexcl h
  · by_cases hz : normalizeText winner = ""
    · have := h (n, c) hmem
      rw [hz, this.1]
      exact this.2
    · exact hexcl hz

/-- Concrete instantiation of `select_top_nominees_excludes_winner`. -/
theorem select_top_nominees_excludes_winner_witness :
    (normalizeText "Jessica Chastain" ≠ "" ∨
      (∀ nc ∈ [("amy adams", (4 : Nat))],
        normalizeText nc.1 = nc.1 ∧ nc.1 ≠ "")) ∧
    ∀ n ∈ selectTopNominees [("amy adams", 4)] "best actress" [] "Jessica Chastain" 3 5,
      "Jessica Chastain" ≠ "" → normalizeText n ≠ normalizeText "Jessica Chastain" := by
  refine ⟨Or.inl (by decide), ?_⟩
  exact select_top_nominees_excludes_winner
    [("amy adams", 4)] "best actress" [] "Jessica Chastain" 3 5 (Or.inl (by decide))

/-- C8: the Cecil B. DeMille category always yields an empty nominee list,
whatever the candidates, tweets and winner supplied. -/
theorem cecil_demille_has_no_nominees
    (cands : List (String × Nat)) (awardName : String) (tweets : List Tweet)
    (winner : String) (minM topN : Nat)
    (h1 : strContains (pyLower awardName) "cecil" = true)
    (h2 : strContains (pyLower awardName) "demille" = true) :
    selectTopNominees cands awardName tweets winner minM topN = [] := by
  rw [selectTopNominees]
  split
  · rfl
  · rw [if_pos (by rw [h1, h2]; rfl)]

/-- Concrete instantiation of `cecil_demille_has_no_nominees` with a
non-empty candidate list. -/
theorem cecil_demille_has_no_nominees_witness :
    strContains (pyLower "Cecil B. DeMille Award") "cecil" = true ∧
    strContains (pyLower "Cecil B. DeMille Award") "demille" = true ∧
    selectTopNominees [("steven spielberg", 10)] "Cecil B. DeMille Award" [] "" 3 5
      = [] := by
  refine ⟨by decide, by decide, ?_⟩
  exact cecil_demille_has_no_nominees [("steven spielberg", 10)]
    "Cecil B. DeMille Award" [] "" 3 5 (by decide) (by decide)

/-! ## Category association
(`associate_winners_with_awards` in src/award/extractors/winner_extractor.py and
`associate_nominees_with_awards` / `associate_presenters_with_awards` in
src/award/extractors/nominee_extractor.py and presenter_extractor.py;
the three loops are identical except for the overlap threshold). -/

/-- `overlap / len(template_words) if template_words else 0`, where
`template_words = set(template_award.split())` and `overlap` is the size of
the intersection with the detected word set. -/
def overlapRatio (detectedWords : Finset String) (templateAward : String) : ℚ :=
  if wordSet templateAward = ∅ then 0
  else ((detectedWords ∩ wordSet templateAward).card : ℚ) /
    ((wordSet templateAward).card : ℚ)

/-- The `best_match` / `best_overlap` loop: the first template award whose
overlap ratio strictly exceeds all earlier ones (`if overlap_ratio >
best_overlap`), starting from `(None, 0.0)`. -/
def bestTemplateMatch (awards : List String) (detectedWords : Finset String) :
    Option String × ℚ :=
  awards.foldl
    (fun acc ta =>
      if overlapRatio detectedWords ta > acc.2 then (some ta, overlapRatio detectedWords ta)
      else acc)
    (none, 0)

/-- The per-harvested-phrase acceptance
`if best_match and best_overlap >= threshold`: at most one template award is
accepted for each detected phrase (Python's `best_match and ...` is false for
`None` and for the empty string). -/
def acceptDetected (awards : List String) (threshold : ℚ) (detected : String) :
    List String :=
  match bestTemplateMatch awards (wordSet (normalizeText detected)) with
  | (some b, r) => if b ≠ "" ∧ threshold ≤ r then [b] else []
  | (none, _) => []

/-- Method 1 of the association loop: accepted template awards accumulated
over all POS-detected award phrases of the tweet. -/
def primaryMentions (awards : List String) (threshold : ℚ) (detected : List String) :
    List String :=
  (detected.map (acceptDetected awards threshold)).flatten

/-- Method 2 (fallback): raw word overlap between the whole normalized tweet
text and each template award's name, same threshold. -/
def fallbackMentions (awards : List String) (threshold : ℚ) (textNormalized : String) :
    List String :=
  awards.filter (fun award =>
    decide (threshold ≤ overlapRatio (wordSet textNormalized) award))

/-- The tweet's `mentioned_awards` list: method 2 runs only when method 1
produced nothing (`if not mentioned_awards:`). -/
def mentionedAwards (awards : List String) (threshold : ℚ) (detected : List String)
    (textNormalized : String) : List String :=
  if primaryMentions awards threshold detected = []
  then fallbackMentions awards threshold textNormalized
  else primaryMentions awards threshold detected

/-- Threshold used by `associate_nominees_with_awards` (0.5). -/
def nomineeAssocThreshold : ℚ := 1 / 2

/-- Threshold used by `associate_presenters_with_awards` (0.5). -/
def presenterAssocThreshold : ℚ := 1 / 2

/-- Threshold used by `associate_winners_with_awards` (0.65, both for the
POS-detected method and for the fallback). -/
def winnerAssocThreshold : ℚ := 13 / 20

theorem bestTemplateMatch_foldl_spec (dw : Finset String) (l : List String) :
    ∀ acc : Option String × ℚ,
      acc.2 ≤ (l.foldl
        (fun acc ta =>
          if overlapRatio dw ta > acc.2 then (some ta, overlapRatio dw ta) else acc)
        acc).2 ∧
      (∀ a ∈ l, overlapRatio dw a ≤ (l.foldl
        (fun acc ta =>
          if overlapRatio dw ta > acc.2 then (some ta, overlapRatio dw ta) else acc)
        acc).2) ∧
      (∀ b, (l.foldl
        (fun acc ta =>
          if overlapRatio dw ta > acc.2 then (some ta, overlapRatio dw ta) else acc)
        acc).1 = some b →
        (acc.1 = some b ∧ (l.foldl
          (fun acc ta =>
            if overlapRatio dw ta > acc.2 then (some ta, overlapRatio dw ta) else acc)
          acc).2 = acc.2) ∨
        (b ∈ l ∧ (l.foldl
          (fun acc ta =>
            if overlapRatio dw ta > acc.2 then (some ta, overlapRatio dw ta) else acc)
          acc).2 = overlapRatio dw b)) := by
  induction l with
  | nil =>
    intro acc
    exact ⟨le_refl _, by simp, fun b hb => Or.inl ⟨hb, rfl⟩⟩
  | cons a l ih =>
    intro acc
    by_cases hgt : overlapRatio dw a > acc.2
    · have hstep : (a :: l).foldl
          (fun acc ta =>
            if overlapRatio dw ta > acc.2 then (some ta, overlapRatio dw ta) else acc)
          acc = l.foldl
          (fun acc ta =>
            if overlapRatio dw ta > acc.2 then (some ta, overlapRatio dw ta) else acc)
          (some a, overlapRatio dw a) := by
        simp [List.foldl_cons, if_pos hgt]
      obtain ⟨ih1, ih2, ih3⟩ := ih (some a, overlapRatio dw a)
      rw [hstep]
      refine ⟨le_trans (le_of_lt hgt) ih1, ?_, ?_⟩
      · intro x hx
        rcases List.mem_cons.mp hx with hx | hx
        · exact hx ▸ ih1
        · exact ih2 x hx
      · intro b hb
        rcases ih3 b hb with ⟨h1, h2⟩ | ⟨h1, h2⟩
        · exact Or.inr ⟨by simp [Option.some_inj.mp h1], by
            rw [h2]; rw [show b = a from Option.some_inj.mp h1.symm]⟩
        · exact Or.inr ⟨List.mem_cons_of_mem _ h1, h2⟩
    · have hstep : (a :: l).foldl
          (fun acc ta =>
            if overlapRatio dw ta > acc.2 then (some ta, overlapRatio dw ta) else acc)
          acc = l.foldl
          (fun acc ta =>
            if overlapRatio dw ta > acc.2 then (some ta, overlapRatio dw ta) else acc)
          acc := by
        simp [List.foldl_cons, if_neg hgt]
      obtain ⟨ih1, ih2, ih3⟩ := ih acc
      rw [hstep]
      refine ⟨ih1, ?_, ?_⟩
      · intro x hx
        rcases List.mem_cons.mp hx with hx | hx
        · exact hx ▸ le_trans (not_lt.mp hgt) ih1
        · exact ih2 x hx
      · intro b hb
        rcases ih3 b hb with ⟨h1, h2⟩ | ⟨h1, h2⟩
        · exact Or.inl ⟨h1, h2⟩
        · exact Or.inr ⟨List.mem_cons_of_mem _ h1, h2⟩

theorem bestTemplateMatch_spec (awards : List String) (dw : Finset String) :
    (∀ a ∈ awards, overlapRatio dw a ≤ (bestTemplateMatch awards dw).2) ∧
    (∀ b, (bestTemplateMatch awards dw).1 = some b →
      b ∈ awards ∧ (bestTemplateMatch awards dw).2 = overlapRatio dw b) := by
  obtain ⟨h1, h2, h3⟩ := bestTemplateMatch_foldl_spec dw awards (none, 0)
  refine ⟨h2, fun b hb => ?_⟩
  rcases h3 b hb with ⟨hcontra, _⟩ | ⟨hmem, heq⟩
  · exact absurd hcontra (by simp)
  · exact ⟨hmem, heq⟩

/-- C5: per harvested award phrase, association accepts at most one template
award; the accepted award clears the role threshold and has maximal
token-overlap ratio among all template awards; the raw word-overlap fallback
runs exactly when no harvested phrase cleared the primary threshold; and the
thresholds are 0.5 for the nominee and presenter extractors and 0.65 for the
winner extractor. -/
theorem association_best_match_threshold_and_fallback :
    (∀ (threshold : ℚ) (awards : List String) (d b : String),
      b ∈ acceptDetected awards threshold d →
        b ∈ awards ∧
        threshold ≤ overlapRatio (wordSet (normalizeText d)) b ∧
        ∀ a ∈ awards, overlapRatio (wordSet (normalizeText d)) a ≤
          overlapRatio (wordSet (normalizeText d)) b) ∧
    (∀ (threshold : ℚ) (awards : List String) (d : String),
      (acceptDetected awards threshold d).length ≤ 1) ∧
    (∀ (threshold : ℚ) (awards detected : List String) (textNormalized : String),
      primaryMentions awards threshold detected ≠ [] →
        mentionedAwards awards threshold detected textNormalized =
          primaryMentions awards threshold detected) ∧
    (∀ (threshold : ℚ) (awards detected : List String) (textNormalized : String),
      primaryMentions awards threshold detected = [] →
        mentionedAwards awards threshold detected textNormalized =
          fallbackMentions awards threshold textNormalized) ∧
    nomineeAssocThreshold = 1 / 2 ∧ presenterAssocThreshold = 1 / 2 ∧
    winnerAssocThreshold = 13 / 20 := by
  refine ⟨?_, ?_, ?_, ?_, rfl, rfl, rfl⟩
  · intro threshold awards d b hb
    obtain ⟨hmax, hsome⟩ := bestTemplateMatch_spec awards (wordSet (normalizeText d))
    rw [acceptDetected] at hb
    rcases hbm : bestTemplateMatch awards (wordSet (normalizeText d)) with ⟨ob, r⟩
    rw [hbm] at hb
    cases ob with
    | none => exact absurd hb (by simp)
    | some b0 =>
      simp only at hb
      split at hb
      · next hcond =>
        have hbb : b = b0 := by simpa using hb
        subst hbb
        obtain ⟨hmem, heq⟩ := hsome b (by rw [hbm])
        have hr : (bestTemplateMatch awards (wordSet (normalizeText d))).2 = r := by
          rw [hbm]
        refine ⟨hmem, ?_, fun a ha => ?_⟩
        · rw [← heq, hr]; exact hcond.2
        · rw [← heq]; exact hmax a ha
      · exact absurd hb (by simp)
  · intro threshold awards d
    rw [acceptDetected]
    rcases bestTemplateMatch awards (wordSet (normalizeText d)) with ⟨ob, r⟩
    cases ob with
    | none => simp
    | some b0 => simp only; split <;> simp
  · intro threshold awards detected textNormalized hne
    rw [mentionedAwards, if_neg hne]
  · intro threshold awards detected textNormalized he
    rw [mentionedAwards, if_pos he]

/-- Concrete instantiation of
`association_best_match_threshold_and_fallback` at the winner threshold. -/
theorem association_best_match_witness :
    ("best actor" ∈ acceptDetected ["best actor"] winnerAssocThreshold "Best Actor!") ∧
    ("best actor" ∈ ["best actor"] ∧
      winnerAssocThreshold ≤ overlapRatio (wordSet (normalizeText "Best Actor!")) "best actor" ∧
      ∀ a ∈ ["best actor"],
        overlapRatio (wordSet (normalizeText "Best Actor!")) a ≤
          overlapRatio (wordSet (normalizeText "Best Actor!")) "best actor") ∧
    (acceptDetected ["best actor"] winnerAssocThreshold "Best Actor!").length ≤ 1 ∧
    (primaryMentions ["best actor"] winnerAssocThreshold ["Best Actor!"] ≠ []) ∧
    mentionedAwards ["best actor"] winnerAssocThreshold ["Best Actor!"] "unrelated text" =
      primaryMentions ["best actor"] winnerAssocThreshold ["Best Actor!"] := by
  have h := association_best_match_threshold_and_fallback
  have hmem : "best actor" ∈ acceptDetected ["best actor"] winnerAssocThreshold
      "Best Actor!" := by with_unfolding_all decide
  have hne : primaryMentions ["best actor"] winnerAssocThreshold ["Best Actor!"] ≠ [] := by
    with_unfolding_all decide
  exact ⟨hmem, h.1 winnerAssocThreshold ["best actor"] "Best Actor!" "best actor" hmem,
    h.2.1 winnerAssocThreshold ["best actor"] "Best Actor!",
    hne, h.2.2.1 winnerAssocThreshold ["best actor"] ["Best Actor!"] "unrelated text" hne⟩

/-! ## Phrase clustering
(`AwardExtractor.cluster_similar_awards`, src/award/extractors/award_extractor.py)

The similarity is `difflib.SequenceMatcher(None, a, b).ratio()`.  With no junk
predicate and strings shorter than 200 characters (the pipeline's phrases are
filtered to < 100 characters) the autojunk heuristic is inert, and
`find_longest_match` returns the matching block of maximal size, breaking ties
by the smallest start in `a` and then the smallest start in `b`; `ratio` is
`2*M / (len(a)+len(b))` where `M` sums the sizes of the recursively found
matching blocks. -/

/-- Length of the common prefix of two character lists: the size of the
matching block starting at a given pair of positions. -/
def runLen : List Char → List Char → Nat
  | a :: as, b :: bs => if a = b then runLen as bs + 1 else 0
  | _, _ => 0

/-- `SequenceMatcher.find_longest_match` over whole lists (no junk): scan all
start pairs in `a`-major order and keep the first strictly longer block,
yielding the maximal size with smallest `i`, then smallest `j`. -/
def findLongestMatch (a b : List Char) : Nat × Nat × Nat :=
  (((List.range a.length).map (fun i =>
      (List.range b.length).map (fun j => (i, j, runLen (a.drop i) (b.drop j))))).flatten).foldl
    (fun best c => if best.2.2 < c.2.2 then c else best) (0, 0, 0)

/-- Total size of all matching blocks (`get_matching_blocks` recursion),
written with explicit fuel so that it evaluates by kernel reduction; a fuel of
`a.length + b.length + 1` always suffices because each recursive call strictly
decreases the combined length. -/
def matchTotalF : Nat → List Char → List Char → Nat
  | 0, _, _ => 0
  | fuel + 1, a, b =>
    if (findLongestMatch a b).2.2 = 0 then 0
    else
      matchTotalF fuel (a.take (findLongestMatch a b).1)
          (b.take (findLongestMatch a b).2.1) +
        (findLongestMatch a b).2.2 +
        matchTotalF fuel (a.drop ((findLongestMatch a b).1 + (findLongestMatch a b).2.2))
          (b.drop ((findLongestMatch a b).2.1 + (findLongestMatch a b).2.2))

def matchTotal (a b : List Char) : Nat := matchTotalF (a.length + b.length + 1) a b

/-- `SequenceMatcher(None, x, y).ratio()` (CPython returns 1.0 when both
strings are empty). -/
def smRatio (x y : String) : ℚ :=
  if x.toList.length + y.toList.length = 0 then 1
  else (2 * (matchTotal x.toList y.toList : ℚ)) /
    ((x.toList.length + y.toList.length : Nat) : ℚ)

/-- Stable insertion for descending-count order: an element is placed after
every earlier element with a strictly larger or equal position in the order,
keeping the original order among equal counts (CPython `sorted` is stable). -/
def insertByCountDesc (x : String × Nat) : List (String × Nat) → List (String × Nat)
  | [] => [x]
  | y :: ys => if x.2 < y.2 then y :: insertByCountDesc x ys else x :: y :: ys

/-- `Counter.most_common()`: items sorted by count descending, stable. -/
def mostCommon : List (String × Nat) → List (String × Nat)
  | [] => []
  | x :: xs => insertByCountDesc x (mostCommon xs)

/-- Python `max(cluster, key=len)`: the first member of maximal length. -/
def maxByLen1 : List String → String
  | [] => ""
  | x :: xs => xs.foldl (fun best y => if best.length < y.length then y else best) x

/-- The inner `for other_phrase in sorted_phrases` loop of
`cluster_similar_awards`: unprocessed phrases whose similarity to the seed
meets the threshold join the cluster and the processed set. -/
def innerScan (phrase : String) (t : ℚ) :
    List String → List String → List String → List String × List String
  | [], cluster, processed => (cluster, processed)
  | o :: rest, cluster, processed =>
    if o ∈ processed then innerScan phrase t rest cluster processed
    else if t ≤ smRatio phrase o then
      innerScan phrase t rest (cluster ++ [o]) (processed ++ [o])
    else innerScan phrase t rest cluster processed

/-- The outer `for phrase in sorted_phrases` loop: each unprocessed phrase
seeds a cluster, scans every other phrase, and the longest member becomes the
canonical key. -/
def clusterLoop (t : ℚ) :
    List String → List String → List String → List (String × List String)
  | [], _, _ => []
  | p :: rest, allPhrases, processed =>
    if p ∈ processed then clusterLoop t rest allPhrases processed
    else
      (maxByLen1 (innerScan p t allPhrases [p] (processed ++ [p])).1,
        (innerScan p t allPhrases [p] (processed ++ [p])).1) ::
        clusterLoop t rest allPhrases (innerScan p t allPhrases [p] (processed ++ [p])).2

/-- `AwardExtractor.cluster_similar_awards`: canonical phrase -> cluster
members, for a phrase-count input in insertion order. -/
def clusterSimilarAwards (counts : List (String × Nat)) (t : ℚ) :
    List (String × List String) :=
  clusterLoop t ((mostCommon counts).map Prod.fst) ((mostCommon counts).map Prod.fst) []

/-- The canonical representatives of a clustering result. -/
def canonicalAwards (clusters : List (String × List String)) : List String :=
  clusters.map Prod.fst

set_option maxRecDepth 8000 in
/-- C4 counterexample: clustering is not idempotent.  First pass: seed
`"abcdefgh"` absorbs `"abcdefghij"` (ratio 8/9) but not `"xbcdefghij"` (ratio
7/9 < 4/5); the cluster's canonical is its longest member `"abcdefghij"`, not
the seed, and its ratio to the other canonical `"xbcdefghij"` is 9/10 ≥ 4/5.
Re-clustering the canonical set (with the clusters' summed mention counts)
therefore merges the two canonicals into one non-singleton cluster. -/
theorem cluster_similar_awards_not_idempotent_cex :
    canonicalAwards
      (clusterSimilarAwards [("abcdefgh", 3), ("xbcdefghij", 2), ("abcdefghij", 1)]
        (4 / 5)) = ["abcdefghij", "xbcdefghij"] ∧
    clusterSimilarAwards [("abcdefghij", 4), ("xbcdefghij", 2)] (4 / 5) =
      [("abcdefghij", ["abcdefghij", "xbcdefghij"])] := by
  with_unfolding_all decide

theorem mem_insertByCountDesc {x y : String × Nat} {l : List (String × Nat)} :
    x ∈ insertByCountDesc y l ↔ x = y ∨ x ∈ l := by
  induction l with
  | nil => simp [insertByCountDesc]
  | cons hd tl ih =>
    rw [insertByCountDesc]
    split
    · rw [List.mem_cons, ih, List.mem_cons]
      tauto
    · rw [List.mem_cons, List.mem_cons]

theorem mem_mostCommon {x : String × Nat} {l : List (String × Nat)} :
    x ∈ mostCommon l ↔ x ∈ l := by
  induction l with
  | nil => simp [mostCommon]
  | cons hd tl ih =>
    rw [mostCommon, mem_insertByCountDesc, ih, List.mem_cons]

theorem innerScan_of_dissimilar (p : String) (t : ℚ)
    (others : List String) :
    ∀ cluster processed, (∀ o ∈ others, o ∈ processed ∨ smRatio p o < t) →
      innerScan p t others cluster processed = (cluster, processed) := by
  induction others with
  | nil => intro cluster processed _; rfl
  | cons o rest ih =>
    intro cluster processed h
    rw [innerScan]
    by_cases hm : o ∈ processed
    · rw [if_pos hm]
      exact ih cluster processed (fun x hx => h x (List.mem_cons_of_mem _ hx))
    · rw [if_neg hm]
      have hlt : smRatio p o < t := by
        rcases h o (List.mem_cons_self _ _) with hc | hc
        · exact absurd hc hm
        · exact hc
      rw [if_neg (not_le.mpr hlt)]
      exact ih cluster processed (fun x hx => h x (List.mem_cons_of_mem _ hx))

theorem clusterLoop_singletons (t : ℚ) (allPhrases : List String)
    (hdis : ∀ p ∈ allPhrases, ∀ q ∈ allPhrases, p ≠ q → smRatio p q < t) :
    ∀ phrases, phrases ⊆ allPhrases → ∀ processed,
      (∀ pr ∈ clusterLoop t phrases allPhrases processed, pr.2 = [pr.1]) ∧
      (∀ c, c ∈ (clusterLoop t phrases allPhrases processed).map Prod.fst ↔
        (c ∈ phrases ∧ c ∉ processed)) := by
  intro phrases
  induction phrases with
  | nil =>
    intro _ processed
    exact ⟨by simp [clusterLoop], by simp [clusterLoop]⟩
  | cons p rest ih =>
    intro hsub processed
    have hsub' : rest ⊆ allPhrases := fun x hx => hsub (List.mem_cons_of_mem _ hx)
    by_cases hm : p ∈ processed
    · have hstep : clusterLoop t (p :: rest) allPhrases processed
          = clusterLoop t rest allPhrases processed := by
        rw [clusterLoop, if_pos hm]
      rw [hstep]
      refine ⟨(ih hsub' processed).1, fun c => ?_⟩
      rw [(ih hsub' processed).2 c, List.mem_cons]
      constructor
      · rintro ⟨hc, hcp⟩
        exact ⟨Or.inr hc, hcp⟩
      · rintro ⟨hc | hc, hcp⟩
        · exact absurd (hc ▸ hm) hcp
        · exact ⟨hc, hcp⟩
    · have hscan : innerScan p t allPhrases [p] (processed ++ [p])
          = ([p], processed ++ [p]) := by
        apply innerScan_of_dissimilar
        intro o ho
        by_cases hop : o = p
        · exact Or.inl (by simp [hop])
        · exact Or.inr
            (hdis p (hsub (List.mem_cons_self _ _)) o ho (fun h => hop h.symm))
      have hstep : clusterLoop t (p :: rest) allPhrases processed
          = (p, [p]) :: clusterLoop t rest allPhrases (processed ++ [p]) := by
        rw [clusterLoop, if_neg hm, hscan]
        rfl
      rw [hstep]
      obtain ⟨ih1, ih2⟩ := ih hsub' (processed ++ [p])
      constructor
      · intro pr hpr
        rcases List.mem_cons.mp hpr with h | h
        · rw [h]
        · exact ih1 pr h
      · intro c
        simp only [List.map_cons, List.mem_cons]
        rw [ih2 c]
        constructor
        · rintro (hc | ⟨h1, h2⟩)
          · exact ⟨Or.inl hc, fun h => hm (hc ▸ h)⟩
          · exact ⟨Or.inr h1, fun hp => h2 (List.mem_append_left _ hp)⟩
        · rintro ⟨h1 | h1, h2⟩
          · exact Or.inl h1
          · by_cases hcp : c = p
            · exact Or.inl hcp
            · refine Or.inr ⟨h1, fun hmem => ?_⟩
              rcases List.mem_append.mp hmem with h' | h'
              · exact h2 h'
              · exact hcp (by simpa using h')

/-- C4 (amended): re-clustering the canonical representatives of a first
clustering yields only singleton clusters and leaves the canonical set
unchanged, provided those representatives are pairwise dissimilar (similarity
below the threshold); the unconditional statement fails because a cluster's
canonical is its longest member rather than its seed, and may still be
similar to another cluster's canonical. -/
theorem recluster_canonicals_singletons_of_dissimilar
    (counts1 counts2 : List (String × Nat)) (t : ℚ)
    (hkeys : ∀ p ∈ counts2.map Prod.fst,
      p ∈ canonicalAwards (clusterSimilarAwards counts1 t))
    (hdis : ∀ p ∈ canonicalAwards (clusterSimilarAwards counts1 t),
      ∀ q ∈ canonicalAwards (clusterSimilarAwards counts1 t),
      p ≠ q → smRatio p q < t) :
    (∀ pr ∈ clusterSimilarAwards counts2 t, pr.2 = [pr.1]) ∧
    (∀ c, c ∈ canonicalAwards (clusterSimilarAwards counts2 t) ↔
      c ∈ counts2.map Prod.fst) := by
  have hmemsort : ∀ c : String,
      c ∈ (mostCommon counts2).map Prod.fst ↔ c ∈ counts2.map Prod.fst := by
    intro c
    constructor
    · intro h
      rcases List.mem_map.mp h with ⟨pr, hpr, hc⟩
      exact hc ▸ List.mem_map_of_mem _ (mem_mostCommon.mp hpr)
    · intro h
      rcases List.mem_map.mp h with ⟨pr, hpr, hc⟩
      exact hc ▸ List.mem_map_of_mem _ (mem_mostCommon.mpr hpr)
  have hdis' : ∀ p ∈ (mostCommon counts2).map Prod.fst,
      ∀ q ∈ (mostCommon counts2).map Prod.fst, p ≠ q → smRatio p q < t := by
    intro p hp q hq hne
    exact hdis p (hkeys p ((hmemsort p).mp hp)) q (hkeys q ((hmemsort q).mp hq)) hne
  obtain ⟨h1, h2⟩ := clusterLoop_singletons t ((mostCommon counts2).map Prod.fst)
    hdis' ((mostCommon counts2).map Prod.fst) (fun x hx => hx) []
  refine ⟨h1, fun c => ?_⟩
  rw [canonicalAwards]
  show c ∈ (clusterLoop t _ _ []).map Prod.fst ↔ _
  rw [h2 c, ← hmemsort c]
  simp

/-- Concrete instantiation of
`recluster_canonicals_singletons_of_dissimilar`: two dissimilar phrases
cluster into two singletons, whose canonicals re-cluster into singletons. -/
theorem recluster_canonicals_singletons_witness :
    (∀ p ∈ ([("aaaa", 1), ("bbbb", 1)] : List (String × Nat)).map Prod.fst,
      p ∈ canonicalAwards (clusterSimilarAwards [("aaaa", 2), ("bbbb", 1)] (4 / 5))) ∧
    (∀ p ∈ canonicalAwards (clusterSimilarAwards [("aaaa", 2), ("bbbb", 1)] (4 / 5)),
      ∀ q ∈ canonicalAwards (clusterSimilarAwards [("aaaa", 2), ("bbbb", 1)] (4 / 5)),
      p ≠ q → smRatio p q < 4 / 5) ∧
    (∀ pr ∈ clusterSimilarAwards [("aaaa", 1), ("bbbb", 1)] (4 / 5), pr.2 = [pr.1]) := by
  have hkeys : ∀ p ∈ ([("aaaa", 1), ("bbbb", 1)] : List (String × Nat)).map Prod.fst,
      p ∈ canonicalAwards (clusterSimilarAwards [("aaaa", 2), ("bbbb", 1)] (4 / 5)) := by
    with_unfolding_all decide
  have hdis : ∀ p ∈ canonicalAwards (clusterSimilarAwards [("aaaa", 2), ("bbbb", 1)] (4 / 5)),
      ∀ q ∈ canonicalAwards (clusterSimilarAwards [("aaaa", 2), ("bbbb", 1)] (4 / 5)),
      p ≠ q → smRatio p q < 4 / 5 := by
    with_unfolding_all decide
  exact ⟨hkeys, hdis,
    (recluster_canonicals_singletons_of_dissimilar
      [("aaaa", 2), ("bbbb", 1)] [("aaaa", 1), ("bbbb", 1)] (4 / 5) hkeys hdis).1⟩

/-! ## Entity type validation
(`EntityTypeValidator`, src/award/validators/entity_type_validator.py) -/

inductive EntityType where
  | person | movie | tvShow | song | unknown
  deriving Repr, DecidableEq

/-- The `COMMON_FIRST_NAMES` set. -/
def commonFirstNames : List String :=
  ["jennifer", "daniel", "anne", "ben", "hugh", "jessica", "amy", "tina",
   "george", "brad", "angelina", "matt", "meryl", "robert", "tom", "leonardo",
   "scarlett", "denzel", "morgan", "samuel", "will", "chris", "ryan", "emma",
   "natalie", "charlize", "kate", "julia", "sandra", "johnny", "christian",
   "harrison", "sean", "kevin", "michael", "helen", "cate", "nicole",
   "julianne", "adele", "taylor", "katy", "rihanna", "beyonce", "britney",
   "bradley", "mark", "joaquin", "javier", "christoph", "marion", "penelope",
   "salma", "halle", "viola", "eddie", "colin", "jude", "ewan", "rachel",
   "jodie", "sally", "glenn", "diane", "frances", "tilda", "damien",
   "quentin", "martin", "steven", "christopher", "david", "peter", "ridley",
   "kathryn", "sofia"]

/-- `EntityTypeValidator.get_expected_type_from_award`. -/
def getExpectedTypeFromAward (awardName : String) : EntityType :=
  if ["actor", "actress", "director", "performance"].any
      (fun w => strContains (pyLower awardName) w) then .person
  else if strContains (pyLower awardName) "motion picture" &&
      !(strContains (pyLower awardName) "performance") then .movie
  else if ["television series", "mini-series", "miniseries"].any
      (fun p => strContains (pyLower awardName) p) then
    (if strContains (pyLower awardName) "performance" then .person else .tvShow)
  else if strContains (pyLower awardName) "song" then .song
  else if strContains (pyLower awardName) "film" ||
      strContains (pyLower awardName) "feature" then .movie
  else .unknown

/-- `EntityTypeValidator.has_person_name_pattern`: first word of the
stripped, lowered entity against the common-name set. -/
def hasPersonNamePattern (entity : String) : Bool :=
  if entity = "" then false
  else
    match pyWords (pyLower (pyStrip entity)) with
    | [] => false
    | w :: _ => commonFirstNames.contains w

/-- A one-character double-quote string (written via its code point to keep
the embedding free of quote-escaping concerns). -/
def dquote : String := ⟨[Char.ofNat 34]⟩

/-- A one-character single-quote string. -/
def squote : String := ⟨[Char.ofNat 39]⟩

/-- Python `entity.replace(" ", "")`. -/
def removeSpaces (s : String) : String :=
  ⟨s.toList.filter (fun c => c ≠ ' ')⟩

/-- `EntityTypeValidator.has_work_indicators`: surrounding quotes, or the
hashtag form of the entity, appear in the tweet text. -/
def hasWorkIndicators (text entity : String) : Bool :=
  strContains text (dquote ++ entity ++ dquote) ||
  strContains text (squote ++ entity ++ squote) ||
  strContains (pyLower text) (pyLower ("#" ++ removeSpaces entity))

/-- `EntityTypeValidator.title_case_ratio`. -/
def titleCaseRatio (entity : String) : ℚ :=
  match pyWords entity with
  | [] => 0
  | ws => ((ws.filter (fun w =>
      match w.toList with
      | c :: _ => c.isUpper
      | [] => false)).length : ℚ) / (((ws : List String)).length : ℚ)

/-- `EntityTypeValidator.classify`.  The `"score" in award_name or "song" in
award_name` test uses the raw (un-lowered) award name, as in the source. -/
def classify (entity awardName tweetText : String) : EntityType :=
  if getExpectedTypeFromAward awardName ≠ .unknown then
    if (getExpectedTypeFromAward awardName = .movie ∨
        getExpectedTypeFromAward awardName = .tvShow ∨
        getExpectedTypeFromAward awardName = .song) then
      if hasPersonNamePattern entity then
        if strContains awardName "score" || strContains awardName "song" then
          if tweetText ≠ "" ∧ hasWorkIndicators tweetText entity then
            getExpectedTypeFromAward awardName
          else .person
        else if tweetText ≠ "" ∧ ¬(hasWorkIndicators tweetText entity = true) then
          .person
        else getExpectedTypeFromAward awardName
      else getExpectedTypeFromAward awardName
    else getExpectedTypeFromAward awardName
  else if hasPersonNamePattern entity then .person
  else if tweetText ≠ "" ∧ hasWorkIndicators tweetText entity then .movie
  else if titleCaseRatio entity < 1 / 2 then .unknown
  else .unknown

/-! ## Winner selection
(`WinnerExtractor.select_top_winner`, src/award/extractors/winner_extractor.py) -/

/-- The `award_keywords` noise set of `select_top_winner`. -/
def awardKeywordsSet : Finset String :=
  (["best", "award", "performance", "actor", "actress", "director", "globe",
    "golden"] : List String).toFinset

/-- The tweet-context search of `select_top_winner`: text of the first award
tweet whose normalized text contains the normalized winner, else `""`. -/
def winnerTweetContext (awardTweets : List Tweet) (winnerNormalized : String) :
    String :=
  match awardTweets.find? (fun tw => strContains (normalizeText tw.text) winnerNormalized) with
  | some tw => tw.text
  | none => ""

/-- The candidate filter of `select_top_winner`: drop pure award-keyword
fragments, drop candidates overlapping the award name by more than 0.6 of
their own words, then keep entity types matching the expected type or
`unknown`. -/
def winnerKeepCandidate (awardName : String) (awardTweets : List Tweet)
    (wc : String × Nat) : Bool :=
  if wordSet (normalizeText wc.1) ≠ ∅ ∧
      wordSet (normalizeText wc.1) ⊆ awardKeywordsSet then false
  else if wordSet (normalizeText wc.1) ≠ ∅ ∧
      wordSet (normalizeText awardName) ≠ ∅ ∧
      (3 : ℚ) / 5 <
        ((wordSet (normalizeText wc.1) ∩ wordSet (normalizeText awardName)).card : ℚ) /
          ((wordSet (normalizeText wc.1)).card : ℚ) then false
  else
    decide (classify wc.1 awardName
        (winnerTweetContext awardTweets (normalizeText wc.1)) =
      getExpectedTypeFromAward awardName ∨
      classify wc.1 awardName
        (winnerTweetContext awardTweets (normalizeText wc.1)) = EntityType.unknown)

def winnerFilteredRaw (cands : List (String × Nat)) (awardName : String)
    (awardTweets : List Tweet) : List (String × Nat) :=
  cands.filter (winnerKeepCandidate awardName awardTweets)

/-- `if not filtered_candidates: filtered_candidates = winner_candidates`. -/
def winnerFilteredTotal (cands : List (String × Nat)) (awardName : String)
    (awardTweets : List Tweet) : List (String × Nat) :=
  if winnerFilteredRaw cands awardName awardTweets = [] then cands
  else winnerFilteredRaw cands awardName awardTweets

/-- `top_candidates = filtered_candidates[:top_n]`. -/
def winnerTop (cands : List (String × Nat)) (awardName : String)
    (awardTweets : List Tweet) (topN : Nat) : List (String × Nat) :=
  (winnerFilteredTotal cands awardName awardTweets).take topN

/-- `max_count = top_candidates[0][1]` (read inside the scoring loop; `0` here
is only a placeholder for the empty case, in which the loop never runs). -/
def winnerMaxCount (cands : List (String × Nat)) (awardName : String)
    (awardTweets : List Tweet) (topN : Nat) : Nat :=
  match winnerTop cands awardName awardTweets topN with
  | [] => 0
  | wc :: _ => wc.2

/-- The strong-context signal list of the scoring loop. -/
def strongSignalsScore : List String :=
  [" wins ", " won ", " winner is ", " winner:", "congrats", "congratulations"]

/-- The blended per-candidate score of `select_top_winner`: base frequency
(up to 60), strong winner context (up to 20, only above ratio 0.5), name
completeness, and entity-type match. -/
def winnerScore (awardName : String) (awardTweets : List Tweet) (maxCount : Nat)
    (wc : String × Nat) : ℚ :=
  ((wc.2 : ℚ) / (maxCount : ℚ)) * 60 +
  (if 0 < (awardTweets.filter (fun tw =>
        strContains (normalizeText tw.text) (normalizeText wc.1))).length then
    (if (1 : ℚ) / 2 <
        (((awardTweets.filter (fun tw =>
            strContains (normalizeText tw.text) (normalizeText wc.1))).filter
          (fun tw => strongSignalsScore.any
            (fun sg => strContains (pyLower tw.text) sg))).length : ℚ) /
        ((awardTweets.filter (fun tw =>
            strContains (normalizeText tw.text) (normalizeText wc.1))).length : ℚ)
    then
      (((awardTweets.filter (fun tw =>
          strContains (normalizeText tw.text) (normalizeText wc.1))).filter
        (fun tw => strongSignalsScore.any
          (fun sg => strContains (pyLower tw.text) sg))).length : ℚ) /
      ((awardTweets.filter (fun tw =>
          strContains (normalizeText tw.text) (normalizeText wc.1))).length : ℚ) * 20
    else 0)
  else 0) +
  (if 2 ≤ (pyWords (normalizeText wc.1)).length then 10
   else if 3 ≤ (pyWords (normalizeText wc.1)).length then 5
   else 0) +
  (if classify wc.1 awardName
      (winnerTweetContext awardTweets (normalizeText wc.1)) =
      getExpectedTypeFromAward awardName then 10 else 0)

/-- `scored_candidates`: name, score, base count for the top candidates. -/
def winnerScoredList (cands : List (String × Nat)) (awardName : String)
    (awardTweets : List Tweet) (topN : Nat) : List (String × ℚ × Nat) :=
  (winnerTop cands awardName awardTweets topN).map
    (fun wc =>
      (wc.1, winnerScore awardName awardTweets
        (winnerMaxCount cands awardName awardTweets topN) wc, wc.2))

/-- `scored_candidates.sort(key=score, reverse=True)` followed by
`scored_candidates[0]`: CPython's sort is stable, so this is the first
element attaining the maximal score. -/
def pickFirstMaxByScore : List (String × ℚ × Nat) → String × ℚ × Nat
  | [] => ("", 0, 0)
  | x :: xs => xs.foldl (fun best y => if best.2.1 < y.2.1 then y else best) x

/-- `WinnerExtractor.select_top_winner`, with Python's two runtime-error
modes made explicit: an `IndexError` when `scored_candidates` is empty
(possible only for `top_n = 0`) and a `ZeroDivisionError` when the leading
top candidate's mention count is zero. -/
def selectTopWinner (cands : List (String × Nat)) (awardName : String)
    (awardTweets : List Tweet) (minMentions topN : Nat) : Except String String :=
  if cands = [] then .ok ""
  else
    match winnerTop cands awardName awardTweets topN with
    | [] => .error "IndexError"
    | wc0 :: _ =>
      if wc0.2 = 0 then .error "ZeroDivisionError"
      else
        if minMentions ≤
            (pickFirstMaxByScore (winnerScoredList cands awardName awardTweets topN)).2.2
        then .ok (pyStrip
          (pickFirstMaxByScore (winnerScoredList cands awardName awardTweets topN)).1)
        else if (minMentions : Int) - 2 ≤
            ((pickFirstMaxByScore (winnerScoredList cands awardName awardTweets topN)).2.2 : Int)
        then .ok (pyStrip
          (pickFirstMaxByScore (winnerScoredList cands awardName awardTweets topN)).1)
        else .ok ""

/-- C3 counterexample: `select_top_winner` can raise.  A candidate list whose
leading entry has mention count 0 reaches `score += (base_count / max_count) *
60` with `max_count == 0` and raises `ZeroDivisionError`, so the function does
not return for every input. -/
theorem select_top_winner_raises_cex :
    selectTopWinner [("x", 0)] "best actor" [] 3 1 = .error "ZeroDivisionError" := by
  with_unfolding_all rfl

theorem pickFirstMaxByScore_foldl_spec (l : List (String × ℚ × Nat)) :
    ∀ acc : String × ℚ × Nat,
      ((l.foldl (fun best y => if best.2.1 < y.2.1 then y else best) acc) = acc ∨
        (l.foldl (fun best y => if best.2.1 < y.2.1 then y else best) acc) ∈ l) ∧
      acc.2.1 ≤ (l.foldl (fun best y => if best.2.1 < y.2.1 then y else best) acc).2.1 ∧
      (∀ x ∈ l, x.2.1 ≤
        (l.foldl (fun best y => if best.2.1 < y.2.1 then y else best) acc).2.1) := by
  induction l with
  | nil => intro acc; exact ⟨Or.inl rfl, le_refl _, by simp⟩
  | cons y l ih =>
    intro acc
    by_cases hlt : acc.2.1 < y.2.1
    · have hstep : (y :: l).foldl (fun best y => if best.2.1 < y.2.1 then y else best) acc
          = l.foldl (fun best y => if best.2.1 < y.2.1 then y else best) y := by
        simp [List.foldl_cons, if_pos hlt]
      obtain ⟨ih1, ih2, ih3⟩ := ih y
      rw [hstep]
      refine ⟨?_, le_trans (le_of_lt hlt) ih2, ?_⟩
      · rcases ih1 with h | h
        · exact Or.inr (by rw [h]; exact List.mem_cons_self _ _)
        · exact Or.inr (List.mem_cons_of_mem _ h)
      · intro x hx
        rcases List.mem_cons.mp hx with h | h
        · exact h ▸ ih2
        · exact ih3 x h
    · have hstep : (y :: l).foldl (fun best y => if best.2.1 < y.2.1 then y else best) acc
          = l.foldl (fun best y => if best.2.1 < y.2.1 then y else best) acc := by
        simp [List.foldl_cons, if_neg hlt]
      obtain ⟨ih1, ih2, ih3⟩ := ih acc
      rw [hstep]
      refine ⟨?_, ih2, ?_⟩
      · rcases ih1 with h | h
        · exact Or.inl h
        · exact Or.inr (List.mem_cons_of_mem _ h)
      · intro x hx
        rcases List.mem_cons.mp hx with h | h
        · exact h ▸ le_trans (not_lt.mp hlt) ih2
        · exact ih3 x h

theorem pickFirstMaxByScore_spec {l : List (String × ℚ × Nat)} (hl : l ≠ []) :
    pickFirstMaxByScore l ∈ l ∧
    ∀ x ∈ l, x.2.1 ≤ (pickFirstMaxByScore l).2.1 := by
  cases l with
  | nil => exact absurd rfl hl
  | cons x xs =>
    obtain ⟨h1, h2, h3⟩ := pickFirstMaxByScore_foldl_spec xs x
    refine ⟨?_, ?_⟩
    · rcases h1 with h | h
      · show List.foldl (fun best y => if best.2.1 < y.2.1 then y else best) x xs ∈ x :: xs
        rw [h]
        exact List.mem_cons_self _ _
      · exact List.mem_cons_of_mem _ h
    · intro z hz
      rcases List.mem_cons.mp hz with h | h
      · exact h ▸ h2
      · exact h3 z h

/-- C3 (amended): `select_top_winner` returns without raising whenever every
candidate's mention count is positive and `top_n` is at least 1 (its default;
`associate_winners_with_awards` only produces positive counts).  It returns
`""` for an empty candidate list; otherwise it returns the stripped name of
the highest-scoring top candidate exactly when that candidate's raw mention
count is at least `min_mentions - 2`, and `""` otherwise.  For a leading
candidate with mention count 0 it raises `ZeroDivisionError` instead
(`select_top_winner_raises_cex`). -/
theorem select_top_winner_total_and_thresholded
    (cands : List (String × Nat)) (awardName : String) (awardTweets : List Tweet)
    (minMentions topN : Nat)
    (hpos : ∀ wc ∈ cands, 0 < wc.2) (htop : 1 ≤ topN) :
    (cands = [] →
      selectTopWinner cands awardName awardTweets minMentions topN = .ok "") ∧
    (cands ≠ [] →
      pickFirstMaxByScore (winnerScoredList cands awardName awardTweets topN) ∈
        winnerScoredList cands awardName awardTweets topN ∧
      (∀ x ∈ winnerScoredList cands awardName awardTweets topN,
        x.2.1 ≤ (pickFirstMaxByScore
          (winnerScoredList cands awardName awardTweets topN)).2.1) ∧
      selectTopWinner cands awardName awardTweets minMentions topN =
        .ok (if (minMentions : Int) - 2 ≤
            ((pickFirstMaxByScore
              (winnerScoredList cands awardName awardTweets topN)).2.2 : Int)
          then pyStrip (pickFirstMaxByScore
            (winnerScoredList cands awardName awardTweets topN)).1
          else "")) := by
  constructor
  · intro he
    rw [selectTopWinner, if_pos he]
  · intro hne
    have htotal : winnerFilteredTotal cands awardName awardTweets ≠ [] := by
      rw [winnerFilteredTotal]
      split
      · exact hne
      · next hraw => exact hraw
    have htopne : winnerTop cands awardName awardTweets topN ≠ [] := by
      rw [winnerTop]
      rcases hl : winnerFilteredTotal cands awardName awardTweets with _ | ⟨a, l⟩
      · exact absurd hl htotal
      · rcases topN with _ | n
        · exact absurd htop (by omega)
        · simp
    have hsub : ∀ wc ∈ winnerTop cands awardName awardTweets topN, wc ∈ cands := by
      intro wc hwc
      have h1 : wc ∈ winnerFilteredTotal cands awardName awardTweets :=
        List.take_subset _ _ hwc
      rw [winnerFilteredTotal] at h1
      split at h1
      · exact h1
      · exact List.mem_of_mem_filter h1
    have hscoredne : winnerScoredList cands awardName awardTweets topN ≠ [] := by
      rw [winnerScoredList]
      rcases hl : winnerTop cands awardName awardTweets topN with _ | ⟨a, l⟩
      · exact absurd hl htopne
      · simp
    obtain ⟨hmem, hmax⟩ := pickFirstMaxByScore_spec hscoredne
    refine ⟨hmem, hmax, ?_⟩
    rcases hl : winnerTop cands awardName awardTweets topN with _ | ⟨wc0, rest⟩
    · exact absurd hl htopne
    · have hc0 : 0 < wc0.2 := hpos wc0 (hsub wc0 (hl ▸ List.mem_cons_self _ _))
      have hexpand : selectTopWinner cands awardName awardTweets minMentions topN =
          if wc0.2 = 0 then Except.error "ZeroDivisionError"
          else if minMentions ≤
              (pickFirstMaxByScore (winnerScoredList cands awardName awardTweets topN)).2.2
          then Except.ok (pyStrip
            (pickFirstMaxByScore (winnerScoredList cands awardName awardTweets topN)).1)
          else if (minMentions : Int) - 2 ≤
              ((pickFirstMaxByScore (winnerScoredList cands awardName awardTweets topN)).2.2 : Int)
          then Except.ok (pyStrip
            (pickFirstMaxByScore (winnerScoredList cands awardName awardTweets topN)).1)
          else Except.ok "" := by
        rw [selectTopWinner, if_neg hne, hl]
      rw [hexpand, if_neg (by omega)]
      by_cases hge : minMentions ≤
          (pickFirstMaxByScore (winnerScoredList cands awardName awardTweets topN)).2.2
      · rw [if_pos hge, if_pos (show (minMentions : Int) - 2 ≤
          ((pickFirstMaxByScore (winnerScoredList cands awardName awardTweets topN)).2.2 : Int)
          from by omega)]
      · rw [if_neg hge]
        by_cases hge2 : (minMentions : Int) - 2 ≤
            ((pickFirstMaxByScore (winnerScoredList cands awardName awardTweets topN)).2.2 : Int)
        · rw [if_pos hge2, if_pos hge2]
        · rw [if_neg hge2, if_neg hge2]

/-- Concrete instantiation of `select_top_winner_total_and_thresholded`. -/
theorem select_top_winner_thresholded_witness :
    (∀ wc ∈ ([("hugh jackman", 5)] : List (String × Nat)), 0 < wc.2) ∧
    (1 : Nat) ≤ 1 ∧
    (([("hugh jackman", 5)] : List (String × Nat)) ≠ [] →
      pickFirstMaxByScore (winnerScoredList [("hugh jackman", 5)] "best actor" [] 1) ∈
        winnerScoredList [("hugh jackman", 5)] "best actor" [] 1 ∧
      (∀ x ∈ winnerScoredList [("hugh jackman", 5)] "best actor" [] 1,
        x.2.1 ≤ (pickFirstMaxByScore
          (winnerScoredList [("hugh jackman", 5)] "best actor" [] 1)).2.1) ∧
      selectTopWinner [("hugh jackman", 5)] "best actor" [] 3 1 =
        .ok (if ((3 : Nat) : Int) - 2 ≤
            ((pickFirstMaxByScore
              (winnerScoredList [("hugh jackman", 5)] "best actor" [] 1)).2.2 : Int)
          then pyStrip (pickFirstMaxByScore
            (winnerScoredList [("hugh jackman", 5)] "best actor" [] 1)).1
          else "")) := by
  refine ⟨by decide, by decide, ?_⟩
  exact (select_top_winner_total_and_thresholded [("hugh jackman", 5)] "best actor" []
    3 1 (by decide) (by decide)).2

/-! ## Template variant map
(`award_variants_map` built in `main`, src/award/cli/extract.py) -/

/-- The hardcoded `AWARD_NAMES` template list of src/award/cli/extract.py. -/
def AWARD_NAMES : List String :=
  ["best screenplay - motion picture",
   "best director - motion picture",
   "best performance by an actress in a television series - comedy or musical",
   "best foreign language film",
   "best performance by an actor in a supporting role in a motion picture",
   "best performance by an actress in a supporting role in a series, mini-series or motion picture made for television",
   "best motion picture - comedy or musical",
   "best performance by an actress in a motion picture - comedy or musical",
   "best mini-series or motion picture made for television",
   "best original score - motion picture",
   "best performance by an actress in a television series - drama",
   "best performance by an actress in a motion picture - drama",
   "cecil b. demille award",
   "best performance by an actor in a motion picture - comedy or musical",
   "best motion picture - drama",
   "best performance by an actor in a supporting role in a series, mini-series or motion picture made for television",
   "best performance by an actress in a supporting role in a motion picture",
   "best television series - drama",
   "best performance by an actor in a mini-series or motion picture made for television",
   "best performance by an actress in a mini-series or motion picture made for television",
   "best animated feature film",
   "best original song - motion picture",
   "best performance by an actor in a motion picture - drama",
   "best television series - comedy or musical",
   "best performance by an actor in a television series - drama",
   "best performance by an actor in a television series - comedy or musical"]

/-- The per-template variant set of `award_variants_map`: the template's own
normalized name plus the normalized text of every discovered award whose
token-overlap ratio against the template's normalized tokens is at least 0.7;
Python's `list(set(variants))` is modelled as deduplication (membership is
what the claims are about, the set iteration order being unspecified). -/
def awardVariants (templateAward : String) (discoveredAwards : List String) :
    List String :=
  ([normalizeText templateAward] ++
    (discoveredAwards.filter (fun d =>
      decide ((7 : ℚ) / 10 ≤
        overlapRatio (wordSet (normalizeText d)) (normalizeText templateAward)))).map
      normalizeText).dedup

/-- C7: the variant set always contains the template's own normalized name,
and a discovered award's normalized text belongs to it exactly when its
token-overlap ratio (intersection over template token-set size) is at least
0.7 — provided the template has at least one normalized token, which holds
for every entry of the hardcoded `AWARD_NAMES` list (third conjunct). -/
theorem award_variants_template_and_iff
    (templateAward : String) (discoveredAwards : List String)
    (hne : pyWords (normalizeText templateAward) ≠ []) :
    normalizeText templateAward ∈ awardVariants templateAward discoveredAwards ∧
    (∀ d ∈ discoveredAwards,
      (normalizeText d ∈ awardVariants templateAward discoveredAwards ↔
        (7 : ℚ) / 10 ≤
          overlapRatio (wordSet (normalizeText d)) (normalizeText templateAward))) ∧
    AWARD_NAMES.all (fun t => !(pyWords (normalizeText t)).isEmpty) = true := by
  have hTne : wordSet (normalizeText templateAward) ≠ ∅ := by
    rw [wordSet]
    intro hc
    rcases hl : pyWords (normalizeText templateAward) with _ | ⟨w, ws⟩
    · exact hne hl
    · rw [hl] at hc
      have : w ∈ (w :: ws).toFinset := by simp
      rw [hc] at this
      exact absurd this (Finset.not_mem_empty w)
  have hself : (7 : ℚ) / 10 ≤
      overlapRatio (wordSet (normalizeText templateAward)) (normalizeText templateAward) := by
    rw [overlapRatio, if_neg hTne, Finset.inter_self]
    have hcard : 0 < (wordSet (normalizeText templateAward)).card :=
      Finset.card_pos.mpr (Finset.nonempty_iff_ne_empty.mpr hTne)
    rw [div_self (by exact_mod_cast Nat.pos_iff_ne_zero.mp hcard)]
    norm_num
  refine ⟨List.mem_dedup.mpr (by simp), fun d hd => ⟨?_, ?_⟩, by with_unfolding_all decide⟩
  · intro hmem
    rcases List.mem_append.mp (List.mem_dedup.mp hmem) with h | h
    · have heq : normalizeText d = normalizeText templateAward := by simpa using h
      have hws : wordSet (normalizeText d) = wordSet (normalizeText templateAward) := by
        rw [heq]
      rw [hws]
      exact hself
    · rcases List.mem_map.mp h with ⟨v, hv, hveq⟩
      have hvacc := (List.mem_filter.mp hv).2
      have hratio : (7 : ℚ) / 10 ≤
          overlapRatio (wordSet (normalizeText v)) (normalizeText templateAward) := by
        exact of_decide_eq_true hvacc
      have hws : wordSet (normalizeText d) = wordSet (normalizeText v) := by
        rw [hveq]
      rw [hws]
      exact hratio
  · intro hratio
    refine List.mem_dedup.mpr (List.mem_append.mpr (Or.inr ?_))
    exact List.mem_map_of_mem _
      (List.mem_filter.mpr ⟨hd, decide_eq_true hratio⟩)

/-- Concrete instantiation of `award_variants_template_and_iff`. -/
theorem award_variants_template_witness :
    (pyWords (normalizeText "best director - motion picture") ≠ []) ∧
    normalizeText "best director - motion picture" ∈
      awardVariants "best director - motion picture" ["best director motion picture"] ∧
    (∀ d ∈ ["best director motion picture"],
      (normalizeText d ∈
        awardVariants "best director - motion picture" ["best director motion picture"] ↔
        (7 : ℚ) / 10 ≤ overlapRatio (wordSet (normalizeText d))
          (normalizeText "best director - motion picture"))) := by
  have h := award_variants_template_and_iff "best director - motion picture"
    ["best director motion picture"] (by with_unfolding_all decide)
  exact ⟨by with_unfolding_all decide, h.1, h.2.1⟩

/-! ## A small regular-expression engine (Brzozowski derivatives)

The `GroupTweetsFilter` class patterns (src/award/processors/filter.py) are
compiled `re` patterns.  `re.search` asks whether any substring matches, which
is encoded as whole-string language membership with explicit context parts:
a leading `\b` becomes `(ε | Σ* W̄)` in front (the character before the match,
if any, is a non-word character), a trailing `\b` becomes `(ε | W̄ Σ*)` behind,
and unanchored ends become `Σ*`.  Python word characters are `[A-Za-z0-9_]`
for the ASCII text handled here, and `re.IGNORECASE` is modelled by matching
the lower-cased text against lower-case patterns. -/

inductive Rx where
  | fail
  | eps
  | cls (p : Char → Bool)
  | alt (r s : Rx)
  | cat (r s : Rx)
  | star (r : Rx)

def nullable : Rx → Bool
  | .fail => false
  | .eps => true
  | .cls _ => false
  | .alt r s => nullable r || nullable s
  | .cat r s => nullable r && nullable s
  | .star _ => true

/-- Simplifying alternation (keeps derivative terms small). -/
def altS : Rx → Rx → Rx
  | .fail, s => s
  | r, .fail => r
  | r, s => .alt r s

/-- Simplifying concatenation. -/
def catS : Rx → Rx → Rx
  | .fail, _ => .fail
  | .eps, s => s
  | _, .fail => .fail
  | r, .eps => r
  | r, s => .cat r s

def deriv (c : Char) : Rx → Rx
  | .fail => .fail
  | .eps => .fail
  | .cls p => if p c then .eps else .fail
  | .alt r s => altS (deriv c r) (deriv c s)
  | .cat r s =>
    if nullable r then altS (catS (deriv c r) s) (deriv c s)
    else catS (deriv c r) s
  | .star r => catS (deriv c r) (.star r)

/-- Whole-string matching by iterated derivatives. -/
def rxMatch (r : Rx) (s : String) : Bool :=
  nullable (s.toList.foldl (fun r c => deriv c r) r)

def chrRx (c : Char) : Rx := .cls (fun x => x = c)

def strRx (s : String) : Rx := s.toList.foldr (fun c r => .cat (chrRx c) r) .eps

def anyRx (l : List Rx) : Rx := l.foldr .alt .fail

def optRx (r : Rx) : Rx := .alt r .eps

/-- Python `.` (no DOTALL): any character except a newline. -/
def dotRx : Rx := .cls (fun c => c ≠ '\n')

def dotPlus : Rx := .cat dotRx (.star dotRx)

/-- Any character at all (the implicit context around a `re.search` hit). -/
def allStar : Rx := .star (.cls (fun _ => true))

def wsPlus : Rx := .cat (.cls pyIsSpace) (.star (.cls pyIsSpace))

def isWordChar (c : Char) : Bool := c.isAlpha || c.isDigit || c = '_'

def nonWordCls : Rx := .cls (fun c => !isWordChar c)

def leftBoundaryCtx : Rx := .alt .eps (.cat allStar nonWordCls)

def rightBoundaryCtx : Rx := .alt .eps (.cat nonWordCls allStar)

/-- `re.search` for a pattern with a leading `\b` and a free right end. -/
def searchB (body : Rx) (s : String) : Bool :=
  rxMatch (.cat leftBoundaryCtx (.cat body allStar)) s

/-- `re.search` for a pattern with `\b` on both sides. -/
def searchBB (body : Rx) (s : String) : Bool :=
  rxMatch (.cat leftBoundaryCtx (.cat body rightBoundaryCtx)) s

/-- `re.search` for an unanchored pattern. -/
def searchPlain (body : Rx) (s : String) : Bool :=
  rxMatch (.cat allStar (.cat body allStar)) s

/-- `re.search` for a pattern with only a trailing `\b`. -/
def searchRB (body : Rx) (s : String) : Bool :=
  rxMatch (.cat allStar (.cat body rightBoundaryCtx)) s

/-- `GroupTweetsFilter._win_pattern`: `\bwin(s|ning|ner|ners)?|won\b`
(IGNORECASE). -/
def winPatternSearch (text : String) : Bool :=
  searchB (.cat (strRx "win")
    (optRx (anyRx [strRx "s", strRx "ning", strRx "ner", strRx "ners"])))
    (pyLower text) ||
  searchRB (strRx "won") (pyLower text)

/-- `GroupTweetsFilter._host_pattern`: `\bhost(s|ed|ing)?\b` (IGNORECASE). -/
def hostPatternSearch (text : String) : Bool :=
  searchBB (.cat (strRx "host") (optRx (anyRx [strRx "s", strRx "ed", strRx "ing"])))
    (pyLower text)

/-- `GroupTweetsFilter._presenter_pattern` (IGNORECASE): the six alternatives
`\bpresent(s|ed|ing|er|ers)?`, `\bintroduc(e|es|ed|ing)`,
`\bannouncing\s+(the\s+)?(winner|award)`,
`\bgiv(e|es|ing)\s+(out\s+)?(the\s+)?award`, `\bhanded\s+out`,
`\bon\s+stage\s+to`. -/
def presenterPatternSearch (text : String) : Bool :=
  searchB (.cat (strRx "present")
    (optRx (anyRx [strRx "s", strRx "ed", strRx "ing", strRx "er", strRx "ers"])))
    (pyLower text) ||
  searchB (.cat (strRx "introduc")
    (anyRx [strRx "e", strRx "es", strRx "ed", strRx "ing"])) (pyLower text) ||
  searchB (.cat (strRx "announcing") (.cat wsPlus
    (.cat (optRx (.cat (strRx "the") wsPlus))
      (anyRx [strRx "winner", strRx "award"])))) (pyLower text) ||
  searchB (.cat (strRx "giv") (.cat (anyRx [strRx "e", strRx "es", strRx "ing"])
    (.cat wsPlus (.cat (optRx (.cat (strRx "out") wsPlus))
      (.cat (optRx (.cat (strRx "the") wsPlus)) (strRx "award")))))) (pyLower text) ||
  searchB (.cat (strRx "handed") (.cat wsPlus (strRx "out"))) (pyLower text) ||
  searchB (.cat (strRx "on") (.cat wsPlus (.cat (strRx "stage")
    (.cat wsPlus (strRx "to"))))) (pyLower text)

/-- `GroupTweetsFilter._nominee_pattern` (IGNORECASE): the ten alternatives
`\bnominat(e|es|ed|ing|ion|ions)`, `nominee(s)?`, `\bcontender(s)?`,
`\bshould\s+(win|have\s+won)`, `\bdeserves?\s+to\s+win`,
`\bup\s+for\s+(best|the)`, `\bin\s+the\s+(running|race)`,
`\bhoping\s+.+\s+wins?`, `\brooting\s+for`,
`\bpredicting?\s+.+\s+(to\s+)?win`. -/
def nomineePatternSearch (text : String) : Bool :=
  searchB (.cat (strRx "nominat")
    (anyRx [strRx "e", strRx "es", strRx "ed", strRx "ing", strRx "ion", strRx "ions"]))
    (pyLower text) ||
  searchPlain (.cat (strRx "nominee") (optRx (strRx "s"))) (pyLower text) ||
  searchB (.cat (strRx "contender") (optRx (strRx "s"))) (pyLower text) ||
  searchB (.cat (strRx "should") (.cat wsPlus
    (anyRx [strRx "win", .cat (strRx "have") (.cat wsPlus (strRx "won"))])))
    (pyLower text) ||
  searchB (.cat (strRx "deserve") (.cat (optRx (strRx "s"))
    (.cat wsPlus (.cat (strRx "to") (.cat wsPlus (strRx "win")))))) (pyLower text) ||
  searchB (.cat (strRx "up") (.cat wsPlus (.cat (strRx "for")
    (.cat wsPlus (anyRx [strRx "best", strRx "the"]))))) (pyLower text) ||
  searchB (.cat (strRx "in") (.cat wsPlus (.cat (strRx "the")
    (.cat wsPlus (anyRx [strRx "running", strRx "race"]))))) (pyLower text) ||
  searchB (.cat (strRx "hoping") (.cat wsPlus (.cat dotPlus
    (.cat wsPlus (.cat (strRx "win") (optRx (strRx "s"))))))) (pyLower text) ||
  searchB (.cat (strRx "rooting") (.cat wsPlus (strRx "for"))) (pyLower text) ||
  searchB (.cat (strRx "predictin") (.cat (optRx (strRx "g"))
    (.cat wsPlus (.cat dotPlus (.cat wsPlus
      (.cat (optRx (.cat (strRx "to") wsPlus)) (strRx "win"))))))) (pyLower text)

/-- `GroupTweetsFilter._cecil_pattern`: `\bcecil\s+b\.?\s+demille\s+award\b`
(IGNORECASE). -/
def cecilPatternSearch (text : String) : Bool :=
  searchBB (.cat (strRx "cecil") (.cat wsPlus (.cat (strRx "b")
    (.cat (optRx (chrRx '.')) (.cat wsPlus (.cat (strRx "demille")
      (.cat wsPlus (strRx "award")))))))) (pyLower text)

/-! ## Grouping filter
(`GroupTweetsFilter.extract_award_mentions` / `filter_tweet`,
src/award/processors/filter.py).  The NLTK tokenizer / POS tagger / chunk
parser is an external capability (spec sections 4.1 and 9); it enters the
model as a `chunker` function producing the space-joined words of each
`AWARD` chunk; a tagger exception is a `chunker` returning what was chunked
before the failure (in particular `[]`). -/

/-- `GroupTweetsFilter.extract_award_mentions`: the Cecil special case plus
every chunked span that is non-empty, contains `"best"` as a substring, and
whose length is strictly between 10 and 100. -/
def extractAwardMentions (chunker : String → List String) (text : String) :
    List String :=
  (if cecilPatternSearch text then ["cecil b. demille award"] else []) ++
  (chunker text).filter (fun spanText =>
    (!(spanText = "")) && strContains spanText "best" &&
      decide (10 < spanText.length) && decide (spanText.length < 100))

/-- The state mutated by `GroupTweetsFilter.filter_tweet`: the four groups
and the `tweet_awards` dict. -/
structure GroupsState where
  win : List Tweet
  host : List Tweet
  presenter : List Tweet
  nominee : List Tweet
  tweet_awards : List (Int × List String)
  deriving Repr, DecidableEq

def GroupsState.init : GroupsState := ⟨[], [], [], [], []⟩

/-- `if award_mentions: tweet_awards.setdefault(id, []).extend(mentions)`
(as the source spells it with an explicit membership test). -/
def taddMentions (ta : List (Int × List String)) (id : Int)
    (mentions : List String) : List (Int × List String) :=
  if mentions = [] then ta
  else if (ta.lookup id).isSome then
    ta.map (fun p => if p.1 = id then (p.1, p.2 ++ mentions) else p)
  else ta ++ [(id, mentions)]

/-- The `_win_pattern` branch of `filter_tweet`. -/
def stepWin (mentions : List String) (t : Tweet) (st : GroupsState) : GroupsState :=
  if winPatternSearch t.text then
    { st with
      win := st.win ++ [t],
      tweet_awards := taddMentions st.tweet_awards t.id mentions }
  else st

/-- The `_host_pattern` branch of `filter_tweet` (no award mentions stored). -/
def stepHost (t : Tweet) (st : GroupsState) : GroupsState :=
  if hostPatternSearch t.text then { st with host := st.host ++ [t] } else st

/-- The `_presenter_pattern` branch of `filter_tweet`. -/
def stepPresenter (mentions : List String) (t : Tweet) (st : GroupsState) :
    GroupsState :=
  if presenterPatternSearch t.text then
    { st with
      presenter := st.presenter ++ [t],
      tweet_awards := taddMentions st.tweet_awards t.id mentions }
  else st

/-- The `_nominee_pattern` branch of `filter_tweet`. -/
def stepNominee (mentions : List String) (t : Tweet) (st : GroupsState) :
    GroupsState :=
  if nomineePatternSearch t.text then
    { st with
      nominee := st.nominee ++ [t],
      tweet_awards := taddMentions st.tweet_awards t.id mentions }
  else st

/-- `GroupTweetsFilter.filter_tweet`: the four pattern branches run in
sequence (membership is not exclusive), and the returned flag is true when
any branch matched. -/
def filterTweet (chunker : String → List String) (st : GroupsState) (t : Tweet) :
    GroupsState × Bool :=
  (stepNominee (extractAwardMentions chunker t.text) t
    (stepPresenter (extractAwardMentions chunker t.text) t
      (stepHost t (stepWin (extractAwardMentions chunker t.text) t st))),
   winPatternSearch t.text || hostPatternSearch t.text ||
     presenterPatternSearch t.text || nomineePatternSearch t.text)

/-- C9: each group receives the tweet exactly when its pattern matches, so a
tweet whose text matches both the win-signal and nominee-signal patterns is
appended to both groups. -/
theorem filter_tweet_groups_not_exclusive :
    (∀ (chunker : String → List String) (st : GroupsState) (t : Tweet),
      (filterTweet chunker st t).1.win =
        st.win ++ (if winPatternSearch t.text = true then [t] else []) ∧
      (filterTweet chunker st t).1.host =
        st.host ++ (if hostPatternSearch t.text = true then [t] else []) ∧
      (filterTweet chunker st t).1.presenter =
        st.presenter ++ (if presenterPatternSearch t.text = true then [t] else []) ∧
      (filterTweet chunker st t).1.nominee =
        st.nominee ++ (if nomineePatternSearch t.text = true then [t] else [])) ∧
    (∀ (chunker : String → List String) (st : GroupsState) (t : Tweet),
      winPatternSearch t.text = true → nomineePatternSearch t.text = true →
        t ∈ (filterTweet chunker st t).1.win ∧
        t ∈ (filterTweet chunker st t).1.nominee) := by
  have hcomp : ∀ (chunker : String → List String) (st : GroupsState) (t : Tweet),
      (filterTweet chunker st t).1.win =
        st.win ++ (if winPatternSearch t.text = true then [t] else []) ∧
      (filterTweet chunker st t).1.host =
        st.host ++ (if hostPatternSearch t.text = true then [t] else []) ∧
      (filterTweet chunker st t).1.presenter =
        st.presenter ++ (if presenterPatternSearch t.text = true then [t] else []) ∧
      (filterTweet chunker st t).1.nominee =
        st.nominee ++ (if nomineePatternSearch t.text = true then [t] else []) := by
    intro chunker st t
    rw [filterTweet]
    refine ⟨?_, ?_, ?_, ?_⟩ <;>
      simp only [stepWin, stepHost, stepPresenter, stepNominee] <;>
      split_ifs <;> simp
  refine ⟨hcomp, fun chunker st t hwin hnom => ?_⟩
  obtain ⟨h1, _, _, h4⟩ := hcomp chunker st t
  constructor
  · rw [h1, if_pos hwin]
    simp
  · rw [h4, if_pos hnom]
    simp

/-- Concrete instantiation of `filter_tweet_groups_not_exclusive`: a tweet
matching both the nominee and win patterns lands in both groups. -/
theorem filter_tweet_groups_witness :
    winPatternSearch "Nominated to win!" = true ∧
    nomineePatternSearch "Nominated to win!" = true ∧
    ((⟨1, "Nominated to win!", 0⟩ : Tweet) ∈
      (filterTweet (fun _ => []) GroupsState.init ⟨1, "Nominated to win!", 0⟩).1.win ∧
     (⟨1, "Nominated to win!", 0⟩ : Tweet) ∈
      (filterTweet (fun _ => []) GroupsState.init ⟨1, "Nominated to win!", 0⟩).1.nominee) := by
  refine ⟨by decide, by decide, ?_⟩
  exact filter_tweet_groups_not_exclusive.2 (fun _ => []) GroupsState.init
    ⟨1, "Nominated to win!", 0⟩ (by decide) (by decide)

/-- C6 counterexample: the harvested-span filter tests `"best" in
award_phrase` — substring, not token — and bounds the length strictly
(`10 < len < 100`).  A span containing `"best"` only inside a word is
accepted, and a token-containing span of length exactly 10 is rejected. -/
theorem extract_award_mentions_bounds_cex :
    ("abestowal ceremony x" ∈
        extractAwardMentions (fun _ => ["abestowal ceremony x"]) "t" ∧
      "best" ∉ pyWords "abestowal ceremony x") ∧
    ("best" ∈ pyWords "best a lov" ∧
      10 ≤ ("best a lov" : String).length ∧ ("best a lov" : String).length ≤ 100 ∧
      "best a lov" ∉ extractAwardMentions (fun _ => ["best a lov"]) "t") := by
  decide

/-- C6 (amended): every harvested phrase other than the Cecil special case is
a chunked span containing `"best"` as a substring with length strictly
between 10 and 100; conversely every chunked span with those properties is
harvested. -/
theorem extract_award_mentions_filter (chunker : String → List String)
    (text : String) :
    (∀ p ∈ extractAwardMentions chunker text, p ≠ "cecil b. demille award" →
      p ∈ chunker text ∧ strContains p "best" = true ∧
        10 < p.length ∧ p.length < 100) ∧
    (∀ spanText ∈ chunker text, strContains spanText "best" = true →
      10 < spanText.length → spanText.length < 100 →
      spanText ∈ extractAwardMentions chunker text) := by
  constructor
  · intro p hp hnc
    rw [extractAwardMentions] at hp
    rcases List.mem_append.mp hp with h | h
    · split at h
      · exact absurd (by simpa using h) hnc
      · exact absurd h (by simp)
    · have hm := List.mem_filter.mp h
      have hcond := hm.2
      simp only [Bool.and_eq_true, Bool.not_eq_true', decide_eq_true_eq] at hcond
      exact ⟨hm.1, hcond.1.1.2, hcond.1.2, hcond.2⟩
  · intro spanText hsp hbest h10 h100
    rw [extractAwardMentions]
    refine List.mem_append.mpr (Or.inr (List.mem_filter.mpr ⟨hsp, ?_⟩))
    have hne : ¬(spanText = "") := by
      intro he
      rw [he] at h10
      exact absurd h10 (by decide)
    simp only [Bool.and_eq_true, Bool.not_eq_true', decide_eq_true_eq]
    exact ⟨⟨⟨by simpa using hne, hbest⟩, h10⟩, h100⟩

/-- Concrete instantiation of `extract_award_mentions_filter`. -/
theorem extract_award_mentions_filter_witness :
    ("best supporting actress" ∈
      extractAwardMentions (fun _ => ["best supporting actress"]) "t") ∧
    ("best supporting actress" ∈ (fun (_ : String) => ["best supporting actress"]) "t" ∧
      strContains "best supporting actress" "best" = true ∧
      10 < ("best supporting actress" : String).length ∧
      ("best supporting actress" : String).length < 100) := by
  have h := extract_award_mentions_filter (fun _ => ["best supporting actress"]) "t"
  have hmem : "best supporting actress" ∈
      extractAwardMentions (fun _ => ["best supporting actress"]) "t" := by decide
  exact ⟨hmem, h.1 "best supporting actress" hmem (by decide)⟩

end GG
